import Mathlib

/-!
Verification of the drag-and-drop column board (pragmatic-dnd-playground).

The repository contains two variants of the reordering core `moveItem`:
* `src/unnamed/part_000` — `DropInfo.beforeId : string | "last"`, a
  `tiny-invariant` throw when the moved item is absent from the source
  container, and a same-container tie-break
  (`args.from === args.to && idx <= beforeIndex ? beforeIndex + 1 : beforeIndex`).
  Embedded below in namespace `Part000`.
* `src/src/App.tsx` — args union `{beforeId?: string} | {toEnd: true}`,
  `if (idx === -1) return state` instead of a throw, and no tie-break
  (`insertIndex = beforeIndex === -1 ? to.length : beforeIndex`).
  Embedded below in namespace `AppTsx`.

`ColumnsState = Record<string, Item[]>` is embedded as an association list
(a JS object: ordered keys, no duplicate keys — theorems that need it carry
a `Nodup` hypothesis on the key list).  The JS functions copy the object and
every array (`Object.fromEntries(Object.entries(state).map(([k,v]) => [k,[...v]]))`)
and then mutate the copies in place; when `args.from === args.to` the names
`source` and `to` alias ONE array, so the anchor scan happens after the
removal splice.  The embedding reproduces this by updating the source
sequence in the state first (`setSeq`) and looking the target sequence up
afterwards.  A JS `TypeError` (reading a property of `undefined` when a
container key is missing) and the `tiny-invariant` throw are represented by
`Except.error`; evaluation order of the faults follows the JS statements.
-/

structure Item where
  id : String
  label : String
deriving DecidableEq, Repr

/-- `ColumnsState = Record<string, Item[]>` as an ordered association list. -/
abbrev ColumnsState := List (String × List Item)

/-- The ways the JS functions can throw: a `TypeError` from reading
`undefined` (missing container key) or the `tiny-invariant` failure
"Item to move must exist in the source container". -/
inductive MoveErr where
  | missingContainer
  | itemNotFound
deriving DecidableEq, Repr

/-- `state[k]` on a JS object: the sequence at key `k`, if the key exists. -/
def lookupSeq (s : ColumnsState) (k : String) : Option (List Item) :=
  (s.find? (fun p => p.1 == k)).map Prod.snd

/-- Writing `state[k] = v` through the aliased array: replaces the sequence
at key `k`, leaves everything else (including key order) alone. -/
def setSeq (s : ColumnsState) (k : String) (v : List Item) : ColumnsState :=
  s.map (fun p => if p.1 = k then (p.1, v) else p)

/-- JS `arr.splice(n, 0, x)`: insert `x` before position `n`
(clamped to the length, as `splice` clamps). -/
def spliceInsert (l : List Item) (n : Nat) (x : Item) : List Item :=
  l.take n ++ x :: l.drop n

namespace Part000

/-- `DropInfo` of src/unnamed/part_000: `beforeId` is an item id or the
string sentinel `"last"`. -/
structure DropInfo where
  id : String
  from_ : String
  to_ : String
  beforeId : String
deriving DecidableEq, Repr

/-- `moveItem` of src/unnamed/part_000 (lines 31–53).  Faithful to the JS:
copy the state, look up `source = next[args.from]` and `to = next[args.to]`
(aliased when the keys coincide), `findIndex` the item, `invariant` throw if
absent, `splice` it out, then either `push` (sentinel `"last"`) or compute
`insertIndex` with the same-container tie-break and `splice` it in. -/
def moveItem (state : ColumnsState) (args : DropInfo) : Except MoveErr ColumnsState :=
  match lookupSeq state args.from_ with
  | none => .error .missingContainer
  | some source =>
    match source.findIdx? (fun i => i.id == args.id) with
    | none => .error .itemNotFound
    | some idx =>
      match source[idx]? with
      | none => .error .itemNotFound
      | some item =>
        let state1 := setSeq state args.from_ (source.eraseIdx idx)
        match lookupSeq state1 args.to_ with
        | none => .error .missingContainer
        | some tgt =>
          if args.beforeId = "last" then
            .ok (setSeq state1 args.to_ (tgt ++ [item]))
          else
            let insertIndex :=
              match tgt.findIdx? (fun i => i.id == args.beforeId) with
              | none => tgt.length
              | some beforeIndex =>
                if args.from_ = args.to_ ∧ idx ≤ beforeIndex then beforeIndex + 1
                else beforeIndex
            .ok (setSeq state1 args.to_ (spliceInsert tgt insertIndex item))

/-- One child of the column's item-list element, as far as `hasDropIntent`
inspects it: is it an `HTMLElement`, and does it carry `data-drop-intent`. -/
structure ChildNode where
  isHTMLElement : Bool
  dropIntentAttr : Bool
deriving DecidableEq, Repr

/-- `hasDropIntent` of src/unnamed/part_000 (lines 55–62): scans the
children for an `HTMLElement` carrying the `data-drop-intent` attribute. -/
def hasDropIntent (children : List ChildNode) : Bool :=
  children.any (fun c => c.isHTMLElement && c.dropIntentAttr)

/-- The `Column` drop surface's `canDrop` (lines 147–151):
`source.data?.type === "item" && !hasDropIntent(element.children)`.
`dataType` is `source.data?.type` (`none` when `data` is undefined). -/
def canDrop (dataType : Option String) (children : List ChildNode) : Bool :=
  (dataType == some "item") && !hasDropIntent children

end Part000

namespace AppTsx

/-- The args union of src/src/App.tsx `moveItem`:
`{id, from, to, beforeId?: string} | {id, from, to, toEnd: true}`.
`toEnd = false` models the field being absent/falsy; `beforeId = none`
models it absent (the JS tests are the truthiness checks
`"toEnd" in args && args.toEnd` and `"beforeId" in args && args.beforeId`,
under which the empty string is falsy). -/
structure Args where
  id : String
  from_ : String
  to_ : String
  toEnd : Bool
  beforeId : Option String
deriving DecidableEq, Repr

/-- `moveItem` of src/src/App.tsx (lines 23–46).  Differences from the
other variant: `if (idx === -1) return state` (the original object, no
throw); no same-container tie-break (`insertIndex = beforeIndex === -1 ?
to.length : beforeIndex`); and when neither `toEnd` nor `beforeId` is
truthy the item is left out of every sequence (`next` is returned with the
item only spliced out).  `to = next[args.to]` only faults when one of the
insertion branches actually uses it. -/
def moveItem (state : ColumnsState) (args : Args) : Except MoveErr ColumnsState :=
  match lookupSeq state args.from_ with
  | none => .error .missingContainer
  | some source =>
    match source.findIdx? (fun i => i.id == args.id) with
    | none => .ok state
    | some idx =>
      match source[idx]? with
      | none => .ok state
      | some item =>
        let state1 := setSeq state args.from_ (source.eraseIdx idx)
        if args.toEnd then
          match lookupSeq state1 args.to_ with
          | none => .error .missingContainer
          | some tgt => .ok (setSeq state1 args.to_ (tgt ++ [item]))
        else
          match args.beforeId with
          | none => .ok state1
          | some b =>
            if b = "" then .ok state1
            else
              match lookupSeq state1 args.to_ with
              | none => .error .missingContainer
              | some tgt =>
                let insertIndex :=
                  match tgt.findIdx? (fun i => i.id == b) with
                  | none => tgt.length
                  | some beforeIndex => beforeIndex
                .ok (setSeq state1 args.to_ (spliceInsert tgt insertIndex item))

end AppTsx

/-- The initial layout of the `App` component (identical in both files). -/
def initialColumns : ColumnsState :=
  [ ("a1", [⟨"t1", "Write README"⟩, ⟨"t2", "Create wireframes"⟩]),
    ("a2", [⟨"d1", "Build UI"⟩]),
    ("a3", [⟨"d2", "Hook up API"⟩]),
    ("b1", [⟨"dn1", "Project kickoff"⟩]),
    ("b2", []), ("b3", []),
    ("c1", []), ("c2", []), ("c3", []) ]

/-- The keys of the state object, in order (`Object.keys`). -/
def keyList (s : ColumnsState) : List String := s.map Prod.fst

/-- All items of the store, container by container in key order. -/
def allItems (s : ColumnsState) : List Item := (s.map Prod.snd).flatten

/-- All item ids of the store, container by container in key order. -/
def allIds (s : ColumnsState) : List String := (allItems s).map Item.id

/-- The Store invariant of the spec's data model: the keys form a genuine
JS object (no duplicate keys) and every item id appears in exactly one
container's sequence, exactly once. -/
def StoreOk (s : ColumnsState) : Prop :=
  (keyList s).Nodup ∧ (allIds s).Nodup

instance (s : ColumnsState) : Decidable (StoreOk s) := by
  unfold StoreOk; infer_instance

namespace Part000

/-- The orchestrator step: `setColumns(prev => moveItem(prev, args))`.
A throwing `moveItem` produces no new snapshot, so the state is kept. -/
def applyReq (s : ColumnsState) (r : DropInfo) : ColumnsState :=
  match moveItem s r with
  | .ok s' => s'
  | .error _ => s

/-- A reachable snapshot: the result of a sequence of move requests. -/
def applyReqs (s : ColumnsState) (rs : List DropInfo) : ColumnsState :=
  rs.foldl applyReq s

end Part000

namespace AppTsx

/-- A request of the shape every drop handler actually produces:
either `toEnd: true` (column surface) or a truthy `beforeId` (item target,
`beforeId = item.id`). -/
def isDropReq (r : Args) : Bool :=
  r.toEnd || (match r.beforeId with
              | some b => b != ""
              | none => false)

/-- The orchestrator step: `setColumns(prev => moveItem(prev, args))`. -/
def applyReq (s : ColumnsState) (r : Args) : ColumnsState :=
  match moveItem s r with
  | .ok s' => s'
  | .error _ => s

/-- A reachable snapshot: the result of a sequence of move requests. -/
def applyReqs (s : ColumnsState) (rs : List Args) : ColumnsState :=
  rs.foldl applyReq s

end AppTsx

/-! ### Basic lemmas about the state representation -/

theorem lookupSeq_cons (k' : String) (v' : List Item) (t : ColumnsState) (k : String) :
    lookupSeq ((k', v') :: t) k = if k' = k then some v' else lookupSeq t k := by
  by_cases h : k' = k <;> simp [lookupSeq, List.find?_cons, h]

theorem setSeq_cons (k' : String) (v' : List Item) (t : ColumnsState)
    (k : String) (w : List Item) :
    setSeq ((k', v') :: t) k w =
      (if k' = k then (k', w) else (k', v')) :: setSeq t k w := by
  by_cases h : k' = k <;> simp [setSeq, h]

theorem keyList_setSeq (s : ColumnsState) (k : String) (v : List Item) :
    keyList (setSeq s k v) = keyList s := by
  induction s with
  | nil => rfl
  | cons p t ih =>
    obtain ⟨k', v'⟩ := p
    rw [setSeq_cons]
    by_cases h : k' = k <;> simp_all [keyList]

theorem mem_keyList_of_lookupSeq {s : ColumnsState} {k : String} {v : List Item}
    (h : lookupSeq s k = some v) : k ∈ keyList s := by
  induction s with
  | nil => simp [lookupSeq] at h
  | cons p t ih =>
    obtain ⟨k', v'⟩ := p
    rw [lookupSeq_cons] at h
    simp only [keyList, List.map_cons, List.mem_cons]
    by_cases hk : k' = k
    · exact Or.inl hk.symm
    · rw [if_neg hk] at h
      exact Or.inr (ih h)

theorem lookupSeq_isSome_of_mem {s : ColumnsState} {k : String}
    (h : k ∈ keyList s) : ∃ v, lookupSeq s k = some v := by
  induction s with
  | nil => simp [keyList] at h
  | cons p t ih =>
    obtain ⟨k', v'⟩ := p
    rw [lookupSeq_cons]
    by_cases hk : k' = k
    · exact ⟨v', by rw [if_pos hk]⟩
    · simp only [keyList, List.map_cons, List.mem_cons] at h
      rcases h with h | h
      · exact absurd h.symm hk
      · rw [if_neg hk]; exact ih h

theorem setSeq_of_not_mem {s : ColumnsState} {k : String} (v : List Item)
    (h : k ∉ keyList s) : setSeq s k v = s := by
  induction s with
  | nil => rfl
  | cons p t ih =>
    obtain ⟨k', v'⟩ := p
    simp only [keyList, List.map_cons, List.mem_cons, not_or] at h
    rw [setSeq_cons, if_neg (fun hh => h.1 hh.symm), ih h.2]

theorem lookupSeq_setSeq_self {s : ColumnsState} {k : String} {v : List Item}
    (w : List Item) (h : lookupSeq s k = some v) :
    lookupSeq (setSeq s k w) k = some w := by
  induction s with
  | nil => simp [lookupSeq] at h
  | cons p t ih =>
    obtain ⟨k', v'⟩ := p
    rw [setSeq_cons]
    by_cases hk : k' = k
    · rw [if_pos hk, lookupSeq_cons, if_pos hk]
    · rw [lookupSeq_cons, if_neg hk] at h
      rw [if_neg hk, lookupSeq_cons, if_neg hk]
      exact ih h

theorem lookupSeq_setSeq_ne {s : ColumnsState} {k k' : String}
    (w : List Item) (h : k' ≠ k) :
    lookupSeq (setSeq s k w) k' = lookupSeq s k' := by
  induction s with
  | nil => rfl
  | cons p t ih =>
    obtain ⟨k₀, v₀⟩ := p
    rw [setSeq_cons]
    by_cases hk : k₀ = k
    · rw [if_pos hk, lookupSeq_cons, lookupSeq_cons,
        if_neg (hk ▸ fun hh => h hh.symm), if_neg (fun hh => h (hk ▸ hh).symm)]
      exact ih
    · rw [if_neg hk, lookupSeq_cons, lookupSeq_cons]
      by_cases hk' : k₀ = k'
      · rw [if_pos hk', if_pos hk']
      · rw [if_neg hk', if_neg hk']; exact ih

/-! ### Permutation machinery for the uniqueness invariant -/

theorem spliceInsert_perm (l : List Item) (n : Nat) (x : Item) :
    (spliceInsert l n x).Perm (x :: l) := by
  unfold spliceInsert
  have h := @List.perm_middle Item x (l.take n) (l.drop n)
  rwa [List.take_append_drop] at h

theorem perm_cons_eraseIdx {l : List Item} {i : Nat} {x : Item}
    (h : l[i]? = some x) : l.Perm (x :: l.eraseIdx i) := by
  rw [List.getElem?_eq_some_iff] at h
  obtain ⟨hi, hx⟩ := h
  rw [List.eraseIdx_eq_take_drop_succ]
  have h1 : l = l.take i ++ x :: l.drop (i + 1) := by
    conv_lhs => rw [← List.take_append_drop i l]
    rw [← hx, List.getElem_cons_drop]
  nth_rewrite 1 [h1]
  exact List.perm_middle

theorem allItems_cons (p : String × List Item) (t : ColumnsState) :
    allItems (p :: t) = p.2 ++ allItems t := by
  simp [allItems]

theorem allItems_setSeq_perm {s : ColumnsState} {k : String} {v : List Item}
    (w : List Item) (hnd : (keyList s).Nodup) (h : lookupSeq s k = some v) :
    (allItems (setSeq s k w) ++ v).Perm (allItems s ++ w) := by
  induction s with
  | nil => simp [lookupSeq] at h
  | cons p t ih =>
    obtain ⟨k', v'⟩ := p
    simp only [keyList, List.map_cons, List.nodup_cons] at hnd
    rw [lookupSeq_cons] at h
    rw [setSeq_cons]
    by_cases hk : k' = k
    · rw [if_pos hk] at h ⊢
      injection h with h
      subst h
      have hnm : k ∉ keyList t := hk ▸ hnd.1
      rw [setSeq_of_not_mem w hnm, allItems_cons, allItems_cons]
      have p1 : ((w ++ allItems t) ++ v').Perm (v' ++ (w ++ allItems t)) :=
        List.perm_append_comm
      have p2 : (v' ++ (w ++ allItems t)).Perm (v' ++ (allItems t ++ w)) :=
        List.perm_append_comm.append_left v'
      have p3 := p1.trans p2
      rwa [← List.append_assoc] at p3
    · rw [if_neg hk] at h ⊢
      rw [allItems_cons, allItems_cons, List.append_assoc, List.append_assoc]
      exact (ih hnd.2 h).append_left v'

/-- The multiset formulation of `allItems_setSeq_perm`. -/
theorem allItems_setSeq_ms {s : ColumnsState} {k : String} {v : List Item}
    (w : List Item) (hnd : (keyList s).Nodup) (h : lookupSeq s k = some v) :
    (↑(allItems (setSeq s k w)) + ↑v : Multiset Item) = ↑(allItems s) + ↑w := by
  rw [Multiset.coe_add, Multiset.coe_add, Multiset.coe_eq_coe]
  exact allItems_setSeq_perm w hnd h

theorem spliceInsert_length (l : List Item) (x : Item) :
    spliceInsert l l.length x = l ++ [x] := by
  simp [spliceInsert]

/-- Inversion: every successful run of the part_000 `moveItem` found the
item in the source sequence, removed it there, and spliced it into the
(post-removal) target sequence at some position. -/
theorem Part000.moveItem_ok_inv {s : ColumnsState} {r : DropInfo} {s' : ColumnsState}
    (h : moveItem s r = .ok s') :
    ∃ source idx item tgt n,
      lookupSeq s r.from_ = some source ∧
      source.findIdx? (fun i => i.id == r.id) = some idx ∧
      source[idx]? = some item ∧
      lookupSeq (setSeq s r.from_ (source.eraseIdx idx)) r.to_ = some tgt ∧
      s' = setSeq (setSeq s r.from_ (source.eraseIdx idx)) r.to_
             (spliceInsert tgt n item) := by
  simp only [moveItem] at h
  split at h
  · simp at h
  rename_i source hsource
  split at h
  · simp at h
  rename_i idx hidx
  split at h
  · simp at h
  rename_i item hitem
  split at h
  · simp at h
  rename_i tgt htgt
  split at h
  · injection h with h
    exact ⟨source, idx, item, tgt, tgt.length, hsource, hidx, hitem, htgt,
      by rw [← h, spliceInsert_length]⟩
  · injection h with h
    exact ⟨source, idx, item, tgt, _, hsource, hidx, hitem, htgt, h.symm⟩

/-- Inversion for the App.tsx `moveItem`: a successful run either returned
the state unchanged (item not found), or removed the item and — depending
on the truthiness of `toEnd`/`beforeId` — spliced it into the target
sequence, or dropped it entirely (both falsy). -/
theorem AppTsx.moveItem_ok_cases {s : ColumnsState} {r : Args} {s' : ColumnsState}
    (h : moveItem s r = .ok s') :
    s' = s ∨
    ∃ source idx item,
      lookupSeq s r.from_ = some source ∧
      source.findIdx? (fun i => i.id == r.id) = some idx ∧
      source[idx]? = some item ∧
      ((r.toEnd = false ∧ (r.beforeId = none ∨ r.beforeId = some "") ∧
        s' = setSeq s r.from_ (source.eraseIdx idx)) ∨
       ∃ tgt n,
         lookupSeq (setSeq s r.from_ (source.eraseIdx idx)) r.to_ = some tgt ∧
         s' = setSeq (setSeq s r.from_ (source.eraseIdx idx)) r.to_
               (spliceInsert tgt n item)) := by
  simp only [moveItem] at h
  split at h
  · simp at h
  rename_i source hsource
  split at h
  · injection h with h
    exact Or.inl h.symm
  rename_i idx hidx
  split at h
  · injection h with h
    exact Or.inl h.symm
  rename_i item hitem
  split at h
  · -- toEnd is truthy
    rename_i htoEnd
    split at h
    · simp at h
    rename_i tgt htgt
    injection h with h
    exact Or.inr ⟨source, idx, item, hsource, hidx, hitem,
      Or.inr ⟨tgt, tgt.length, htgt, by rw [← h, spliceInsert_length]⟩⟩
  · rename_i htoEnd
    rw [Bool.not_eq_true] at htoEnd
    split at h
    · -- beforeId absent
      rename_i hnone
      injection h with h
      exact Or.inr ⟨source, idx, item, hsource, hidx, hitem,
        Or.inl ⟨htoEnd, Or.inl hnone, h.symm⟩⟩
    rename_i b hb
    split at h
    · -- beforeId = ""
      rename_i hempty
      injection h with h
      exact Or.inr ⟨source, idx, item, hsource, hidx, hitem,
        Or.inl ⟨htoEnd, Or.inr (by rw [hb, hempty]), h.symm⟩⟩
    · split at h
      · simp at h
      rename_i tgt htgt
      injection h with h
      exact Or.inr ⟨source, idx, item, hsource, hidx, hitem,
        Or.inr ⟨tgt, _, htgt, h.symm⟩⟩

theorem coe_spliceInsert (tgt : List Item) (n : Nat) (item : Item) :
    (↑(spliceInsert tgt n item) : Multiset Item) = item ::ₘ ↑tgt := by
  rw [Multiset.cons_coe, Multiset.coe_eq_coe]
  exact spliceInsert_perm tgt n item

theorem coe_eraseIdx {source : List Item} {idx : Nat} {item : Item}
    (h : source[idx]? = some item) :
    (↑source : Multiset Item) = item ::ₘ ↑(source.eraseIdx idx) := by
  rw [Multiset.cons_coe, Multiset.coe_eq_coe]
  exact perm_cons_eraseIdx h

/-- Core of the uniqueness argument: a successful splice-out/splice-in
rewrite of the store leaves the multiset of items untouched. -/
theorem splice_chain_ms {s state1 s' : ColumnsState} {source tgt : List Item}
    {idx n : Nat} {item : Item} {fromK toK : String}
    (hk : (keyList s).Nodup)
    (h1 : lookupSeq s fromK = some source)
    (h3 : source[idx]? = some item)
    (hst1 : state1 = setSeq s fromK (source.eraseIdx idx))
    (h4 : lookupSeq state1 toK = some tgt)
    (h5 : s' = setSeq state1 toK (spliceInsert tgt n item)) :
    (↑(allItems s') : Multiset Item) = ↑(allItems s) := by
  have hk1 : (keyList state1).Nodup := by rw [hst1, keyList_setSeq]; exact hk
  have e1 : (↑(allItems state1) : Multiset Item) + ↑source
      = ↑(allItems s) + ↑(source.eraseIdx idx) := by
    rw [hst1]; exact allItems_setSeq_ms _ hk h1
  have e2 : (↑(allItems s') : Multiset Item) + ↑tgt
      = ↑(allItems state1) + ↑(spliceInsert tgt n item) := by
    rw [h5]; exact allItems_setSeq_ms _ hk1 h4
  rw [coe_spliceInsert, Multiset.add_cons, ← Multiset.cons_add] at e2
  rw [coe_eraseIdx h3, Multiset.add_cons, ← Multiset.cons_add] at e1
  have e1' : (item ::ₘ ↑(allItems state1) : Multiset Item) = ↑(allItems s) :=
    add_right_cancel e1
  have e2' : (↑(allItems s') : Multiset Item) = item ::ₘ ↑(allItems state1) :=
    add_right_cancel e2
  rw [e2', e1']

theorem Part000.moveItem_keyList {s : ColumnsState} {r : DropInfo} {s' : ColumnsState}
    (h : moveItem s r = .ok s') : keyList s' = keyList s := by
  obtain ⟨source, idx, item, tgt, n, _, _, _, _, h5⟩ := moveItem_ok_inv h
  rw [h5, keyList_setSeq, keyList_setSeq]

theorem Part000.moveItem_perm {s : ColumnsState} {r : DropInfo} {s' : ColumnsState}
    (hk : (keyList s).Nodup) (h : moveItem s r = .ok s') :
    (allItems s').Perm (allItems s) := by
  obtain ⟨source, idx, item, tgt, n, h1, h2, h3, h4, h5⟩ := moveItem_ok_inv h
  rw [← Multiset.coe_eq_coe]
  exact splice_chain_ms hk h1 h3 rfl h4 h5

theorem AppTsx.moveItem_keys {s : ColumnsState} {r : Args} {s' : ColumnsState}
    (h : moveItem s r = .ok s') : keyList s' = keyList s := by
  rcases moveItem_ok_cases h with h | ⟨source, idx, item, _, _, _, hcase⟩
  · rw [h]
  rcases hcase with ⟨_, _, h5⟩ | ⟨tgt, n, _, h5⟩
  · rw [h5, keyList_setSeq]
  · rw [h5, keyList_setSeq, keyList_setSeq]

theorem AppTsx.moveItem_permItems {s : ColumnsState} {r : Args} {s' : ColumnsState}
    (hk : (keyList s).Nodup) (hreq : isDropReq r = true)
    (h : moveItem s r = .ok s') : (allItems s').Perm (allItems s) := by
  rcases moveItem_ok_cases h with h | ⟨source, idx, item, h1, h2, h3, hcase⟩
  · rw [h]
  rcases hcase with ⟨hEnd, hBefore, _⟩ | ⟨tgt, n, h4, h5⟩
  · exfalso
    simp only [isDropReq, hEnd, Bool.false_or] at hreq
    rcases hBefore with hb | hb <;> simp [hb] at hreq
  · rw [← Multiset.coe_eq_coe]
    exact splice_chain_ms hk h1 h3 rfl h4 h5

theorem StoreOk_of_perm {s s' : ColumnsState}
    (hkeys : keyList s' = keyList s) (hperm : (allItems s').Perm (allItems s))
    (h : StoreOk s) : StoreOk s' := by
  refine ⟨hkeys ▸ h.1, ?_⟩
  have : (allIds s').Perm (allIds s) := hperm.map Item.id
  exact this.nodup_iff.mpr h.2

theorem Part000.applyReq_storeOk {s : ColumnsState} {r : DropInfo}
    (h : StoreOk s) : StoreOk (applyReq s r) := by
  unfold applyReq
  split
  · rename_i s' hok
    exact StoreOk_of_perm (moveItem_keyList hok) (moveItem_perm h.1 hok) h
  · exact h

theorem Part000.applyReqs_storeOk {s : ColumnsState} (rs : List DropInfo)
    (h : StoreOk s) : StoreOk (applyReqs s rs) := by
  induction rs generalizing s with
  | nil => exact h
  | cons r rs ih => exact ih (applyReq_storeOk h)

theorem AppTsx.applyReq_invariant {s : ColumnsState} {r : Args}
    (hreq : isDropReq r = true) (h : StoreOk s) : StoreOk (applyReq s r) := by
  unfold applyReq
  split
  · rename_i s' hok
    exact StoreOk_of_perm (moveItem_keys hok) (moveItem_permItems h.1 hreq hok) h
  · exact h

theorem AppTsx.applyReqs_invariant {s : ColumnsState} {rs : List Args}
    (hreq : ∀ r ∈ rs, isDropReq r = true) (h : StoreOk s) :
    StoreOk (applyReqs s rs) := by
  induction rs generalizing s with
  | nil => exact h
  | cons r rs ih =>
    exact ih (fun x hx => hreq x (List.mem_cons_of_mem r hx))
      (applyReq_invariant (hreq r (List.mem_cons_self r rs)) h)

/-! ### Index lemmas for the findIndex/splice algebra -/

theorem findIdx?_getElem? {l : List Item} {p : Item → Bool} {i : Nat}
    (h : l.findIdx? p = some i) : ∃ x, l[i]? = some x ∧ p x = true := by
  rw [List.findIdx?_eq_some_iff_getElem] at h
  obtain ⟨hi, hp, _⟩ := h
  exact ⟨l[i], List.getElem?_eq_getElem hi, hp⟩

theorem findIdx?_prop {l : List Item} {p : Item → Bool} {i : Nat} {x : Item}
    (h : l.findIdx? p = some i) (hx : l[i]? = some x) : p x = true := by
  obtain ⟨y, hy, hp⟩ := findIdx?_getElem? h
  rw [hy] at hx
  injection hx with hx
  rw [← hx]; exact hp

/-- Deleting the moved item (at index `i`) shifts a later first match of
the anchor predicate down by one. -/
theorem findIdx?_eraseIdx_lt {l : List Item} {pa pb : Item → Bool} {i j : Nat}
    (ha : l.findIdx? pa = some i) (hb : l.findIdx? pb = some j) (hij : i < j) :
    (l.eraseIdx i).findIdx? pb = some (j - 1) := by
  rw [List.findIdx?_eq_some_iff_getElem] at ha hb ⊢
  obtain ⟨hia, _, _⟩ := ha
  obtain ⟨hjb, hpb, hfirst⟩ := hb
  have hlen : (l.eraseIdx i).length = l.length - 1 := List.length_eraseIdx_of_lt hia
  have hj1 : j - 1 < (l.eraseIdx i).length := by omega
  refine ⟨hj1, ?_, ?_⟩
  · have hle : 1 ≤ j := by omega
    have he := List.getElem_eraseIdx_of_ge l i (j - 1) hj1 (by omega)
    rw [he]
    simp only [Nat.sub_add_cancel hle]
    exact hpb
  · intro m hm
    by_cases hmi : m < i
    · rw [List.getElem_eraseIdx_of_lt l i m (by omega) hmi]
      exact hfirst m (by omega)
    · rw [List.getElem_eraseIdx_of_ge l i m (by omega) (by omega)]
      exact hfirst (m + 1) (by omega)

/-- `findIndex` over a list whose prefix rejects the predicate and whose
next element satisfies it. -/
theorem findIdx?_append_cons {l₁ l₂ : List Item} {a : Item} {p : Item → Bool}
    (hl : ∀ x ∈ l₁, p x = false) (ha : p a = true) :
    (l₁ ++ a :: l₂).findIdx? p = some l₁.length := by
  rw [List.findIdx?_eq_some_iff_getElem]
  have hlen : l₁.length < (l₁ ++ a :: l₂).length := by
    simp [List.length_append]
  refine ⟨hlen, ?_, ?_⟩
  · have : (l₁ ++ a :: l₂)[l₁.length] = a := by
      rw [List.getElem_append_right (le_refl l₁.length)]
      simp
    rw [this]; exact ha
  · intro j hj
    rw [List.getElem_append_left hj]
    have := hl l₁[j] (List.getElem_mem hj)
    simp [this]

theorem eraseIdx_append_length (l₁ l₂ : List Item) (a : Item) :
    (l₁ ++ a :: l₂).eraseIdx l₁.length = l₁ ++ l₂ := by
  induction l₁ with
  | nil => rfl
  | cons x t ih => simp [List.eraseIdx, ih]

theorem getElem?_append_length (l₁ l₂ : List Item) (a : Item) :
    (l₁ ++ a :: l₂)[l₁.length]? = some a := by
  rw [List.getElem?_append_right (le_refl l₁.length)]
  simp

theorem spliceInsert_append_succ (l₁ l₂ : List Item) (a b : Item) :
    spliceInsert (l₁ ++ b :: l₂) (l₁.length + 1) a = l₁ ++ b :: a :: l₂ := by
  unfold spliceInsert
  have ht : (l₁ ++ b :: l₂).take (l₁.length + 1) = l₁ ++ [b] := by
    rw [List.take_append 1]
    simp
  have hd : (l₁ ++ b :: l₂).drop (l₁.length + 1) = l₂ := by
    rw [List.drop_append 1]
    simp
  rw [ht, hd, List.append_assoc]
  rfl

/-- In a store sequence with duplicate-free ids, the id of the removed
item is gone after the removal. -/
theorem id_not_mem_eraseIdx {source : List Item} {idx : Nat} {item : Item}
    (hnd : (source.map Item.id).Nodup) (hget : source[idx]? = some item) :
    ∀ x ∈ source.eraseIdx idx, x.id ≠ item.id := by
  induction source generalizing idx with
  | nil => simp at hget
  | cons y t ih =>
    simp only [List.map_cons, List.nodup_cons] at hnd
    cases idx with
    | zero =>
      rw [List.getElem?_cons_zero] at hget
      injection hget with hget
      subst hget
      intro x hx hxy
      exact hnd.1 (hxy ▸ List.mem_map_of_mem Item.id hx)
    | succ n =>
      simp only [List.getElem?_cons_succ] at hget
      intro x hx
      rw [List.eraseIdx_cons_succ] at hx
      rcases List.mem_cons.mp hx with rfl | hx
      · intro hxy
        have : item ∈ t := List.getElem?_mem hget
        exact hnd.1 (hxy ▸ List.mem_map_of_mem Item.id this)
      · exact ih hnd.2 hget x hx

theorem mem_allItems_of_lookupSeq {s : ColumnsState} {k : String} {v : List Item}
    (h : lookupSeq s k = some v) : ∀ x ∈ v, x ∈ allItems s := by
  induction s with
  | nil => simp [lookupSeq] at h
  | cons p t ih =>
    obtain ⟨k', v'⟩ := p
    rw [lookupSeq_cons] at h
    rw [allItems_cons]
    by_cases hk : k' = k
    · rw [if_pos hk] at h
      injection h with h
      subst h
      intro x hx
      exact List.mem_append_left _ hx
    · rw [if_neg hk] at h
      intro x hx
      exact List.mem_append_right _ (ih h x hx)

theorem setSeq_setSeq (s : ColumnsState) (k : String) (v w : List Item) :
    setSeq (setSeq s k v) k w = setSeq s k w := by
  simp only [setSeq, List.map_map]
  congr 1
  funext p
  by_cases h : p.1 = k <;> simp [h]

/-- Shared shape of every same-container insert-before run of the part_000
`moveItem` whose anchor is found (at post-removal index `bi`, with the
tie-break condition `idx ≤ bi` holding). -/
theorem Part000.moveItem_same_insert {s : ColumnsState} {r : DropInfo}
    {source : List Item} {idx bi : Nat} {item : Item}
    (hsame : r.from_ = r.to_) (hlast : r.beforeId ≠ "last")
    (h1 : lookupSeq s r.from_ = some source)
    (h2 : source.findIdx? (fun i => i.id == r.id) = some idx)
    (h3 : source[idx]? = some item)
    (hb : (source.eraseIdx idx).findIdx? (fun i => i.id == r.beforeId) = some bi)
    (hle : idx ≤ bi) :
    moveItem s r
      = .ok (setSeq s r.from_ (spliceInsert (source.eraseIdx idx) (bi + 1) item)) := by
  have h4 : lookupSeq (setSeq s r.from_ (source.eraseIdx idx)) r.to_
      = some (source.eraseIdx idx) := by
    rw [← hsame]; exact lookupSeq_setSeq_self _ h1
  simp only [moveItem, h1, h2, h3, h4, hb]
  rw [if_neg hlast, if_pos ⟨hsame, hle⟩, ← hsame, setSeq_setSeq]

/-! ### The claims -/

/-- **C1** (counterexample).  The claim: `moveItem` applied to `{A:[x,y,z]}`
moving `x` within `A` with anchor `z` yields `{A:[y,x,z]}`.  The part_000
variant of `moveItem` — one of the two implementations the claim cites —
instead yields `{A:[y,z,x]}`: after removing `x` the anchor `z` sits at
index 1, and the tie-break (`idx ≤ beforeIndex`, i.e. `0 ≤ 1`) increments
the insertion index to 2, placing `x` after `z`, not before it. -/
theorem claim1_counterexample :
    Part000.moveItem [("A", [⟨"x", "X"⟩, ⟨"y", "Y"⟩, ⟨"z", "Z"⟩])]
        ⟨"x", "A", "A", "z"⟩
      = .ok [("A", [⟨"y", "Y"⟩, ⟨"z", "Z"⟩, ⟨"x", "X"⟩])]
    ∧ ([("A", [⟨"y", "Y"⟩, ⟨"z", "Z"⟩, ⟨"x", "X"⟩])] : ColumnsState)
      ≠ [("A", [⟨"y", "Y"⟩, ⟨"x", "X"⟩, ⟨"z", "Z"⟩])] :=
  ⟨rfl, by decide⟩

/-- **C1** (amended).  Moving `x` within `{A:[x,y,z]}` with anchor `z`
yields `{A:[y,x,z]}` under the App.tsx variant of `moveItem` (no
tie-break: `x` is inserted at the anchor's post-removal index 1); the
part_000 variant (with the same-container tie-break) yields `{A:[y,z,x]}`
instead. -/
theorem claim1_theorem :
    AppTsx.moveItem [("A", [⟨"x", "X"⟩, ⟨"y", "Y"⟩, ⟨"z", "Z"⟩])]
        ⟨"x", "A", "A", false, some "z"⟩
      = .ok [("A", [⟨"y", "Y"⟩, ⟨"x", "X"⟩, ⟨"z", "Z"⟩])]
    ∧ Part000.moveItem [("A", [⟨"x", "X"⟩, ⟨"y", "Y"⟩, ⟨"z", "Z"⟩])]
        ⟨"x", "A", "A", "z"⟩
      = .ok [("A", [⟨"y", "Y"⟩, ⟨"z", "Z"⟩, ⟨"x", "X"⟩])] :=
  ⟨rfl, rfl⟩

/-- **C2** (counterexample).  The claim asserts the same-container
tie-break for both cited `moveItem` implementations; in particular that
moving `a` with anchor `b` over `[..., a, b, ...]` yields `[..., b, a, ...]`.
The App.tsx variant has no tie-break: on `{A:[a,b]}`, moving `a` with
anchor `b` inserts at the anchor's post-removal index 0 and returns
`{A:[a,b]}` unchanged — not `{A:[b,a]}`. -/
theorem claim2_counterexample :
    AppTsx.moveItem [("A", [⟨"a", "Aa"⟩, ⟨"b", "Bb"⟩])]
        ⟨"a", "A", "A", false, some "b"⟩
      = .ok [("A", [⟨"a", "Aa"⟩, ⟨"b", "Bb"⟩])]
    ∧ ([("A", [⟨"a", "Aa"⟩, ⟨"b", "Bb"⟩])] : ColumnsState)
      ≠ [("A", [⟨"b", "Bb"⟩, ⟨"a", "Aa"⟩])] :=
  ⟨rfl, by decide⟩

/-- **C2** (amended).  The tie-break holds for the part_000 variant of
`moveItem` only.  Conjunct 1: for every same-container move whose anchor's
first pre-removal match is strictly after the moved item's index (with
distinct ids, the spec's "at or before" is exactly this case), the item is
spliced in at the anchor's post-removal index plus one — that is, at the
anchor's pre-removal index `bpre`.  Conjunct 2, in particular: for every
sequence `l₁ ++ [a, b] ++ l₂` (first occurrences of the two ids at `a` and
`b`), moving `a` with anchor `b` yields `l₁ ++ [b, a] ++ l₂`, moving `a`
one slot forward rather than leaving it in place.  (The App.tsx variant
no-ops on that input, per the counterexample.) -/
theorem claim2_theorem :
    (∀ (s : ColumnsState) (r : Part000.DropInfo) (source : List Item)
        (idx bpre : Nat) (item : Item),
      r.from_ = r.to_ →
      r.beforeId ≠ "last" →
      lookupSeq s r.from_ = some source →
      source.findIdx? (fun i => i.id == r.id) = some idx →
      source[idx]? = some item →
      source.findIdx? (fun i => i.id == r.beforeId) = some bpre →
      idx < bpre →
      Part000.moveItem s r
        = .ok (setSeq s r.from_ (spliceInsert (source.eraseIdx idx) bpre item)))
    ∧ (∀ (s : ColumnsState) (k : String) (l₁ l₂ : List Item) (a b : Item),
      lookupSeq s k = some (l₁ ++ a :: b :: l₂) →
      a.id ∉ l₁.map Item.id →
      b.id ∉ l₁.map Item.id →
      b.id ≠ "last" →
      Part000.moveItem s ⟨a.id, k, k, b.id⟩
        = .ok (setSeq s k (l₁ ++ b :: a :: l₂))) := by
  constructor
  · intro s r source idx bpre item hsame hlast h1 h2 h3 hb hij
    have herase : (source.eraseIdx idx).findIdx? (fun i => i.id == r.beforeId)
        = some (bpre - 1) := findIdx?_eraseIdx_lt h2 hb hij
    have h := Part000.moveItem_same_insert hsame hlast h1 h2 h3 herase (by omega)
    rwa [Nat.sub_add_cancel (by omega : 1 ≤ bpre)] at h
  · intro s k l₁ l₂ a b h1 ha hb hblast
    have hfa : ∀ x ∈ l₁, (x.id == a.id) = false := by
      intro x hx
      rw [beq_eq_false_iff_ne]
      intro he
      exact ha (he ▸ List.mem_map_of_mem Item.id hx)
    have hfb : ∀ x ∈ l₁, (x.id == b.id) = false := by
      intro x hx
      rw [beq_eq_false_iff_ne]
      intro he
      exact hb (he ▸ List.mem_map_of_mem Item.id hx)
    have h2 : (l₁ ++ a :: b :: l₂).findIdx? (fun i => i.id == a.id)
        = some l₁.length := findIdx?_append_cons hfa (by simp)
    have h3 : (l₁ ++ a :: b :: l₂)[l₁.length]? = some a :=
      getElem?_append_length l₁ (b :: l₂) a
    have herase : (l₁ ++ a :: b :: l₂).eraseIdx l₁.length = l₁ ++ b :: l₂ :=
      eraseIdx_append_length l₁ (b :: l₂) a
    have hfind : ((l₁ ++ a :: b :: l₂).eraseIdx l₁.length).findIdx?
        (fun i => i.id == b.id) = some l₁.length := by
      rw [herase]
      exact findIdx?_append_cons hfb (by simp)
    have h := @Part000.moveItem_same_insert s ⟨a.id, k, k, b.id⟩
      (l₁ ++ a :: b :: l₂) l₁.length l₁.length a rfl hblast
      h1 h2 h3 hfind (le_refl _)
    rwa [herase, spliceInsert_append_succ] at h

/-- **C3** (counterexample).  The claim: a Move Request whose `itemId` is
absent from the source container is dropped non-fatally by `moveItem`,
retaining the previous snapshot.  The part_000 variant instead throws the
`tiny-invariant` violation "Item to move must exist in the source
container" — a crash, and no snapshot is produced. -/
theorem claim3_counterexample :
    Part000.moveItem [("A", [⟨"x", "X"⟩])] ⟨"zz", "A", "A", "x"⟩
      = .error MoveErr.itemNotFound :=
  rfl

/-- **C3** (amended).  When the moved id is absent from the source
sequence, the App.tsx variant of `moveItem` returns the previous snapshot
itself, unchanged (`if (idx === -1) return state`), while the part_000
variant throws the invariant violation instead of returning a snapshot. -/
theorem claim3_theorem :
    (∀ (s : ColumnsState) (r : AppTsx.Args) (source : List Item),
      lookupSeq s r.from_ = some source →
      (∀ i ∈ source, i.id ≠ r.id) →
      AppTsx.moveItem s r = .ok s)
    ∧ (∀ (s : ColumnsState) (r : Part000.DropInfo) (source : List Item),
      lookupSeq s r.from_ = some source →
      (∀ i ∈ source, i.id ≠ r.id) →
      Part000.moveItem s r = .error MoveErr.itemNotFound) := by
  constructor
  · intro s r source h1 habs
    have h2 : source.findIdx? (fun i => i.id == r.id) = none := by
      rw [List.findIdx?_eq_none_iff]
      intro x hx
      rw [beq_eq_false_iff_ne]
      exact habs x hx
    simp only [AppTsx.moveItem, h1, h2]
  · intro s r source h1 habs
    have h2 : source.findIdx? (fun i => i.id == r.id) = none := by
      rw [List.findIdx?_eq_none_iff]
      intro x hx
      rw [beq_eq_false_iff_ne]
      exact habs x hx
    simp only [Part000.moveItem, h1, h2]

/-- Witness for C2: on `{A:[a,b]}`, the part_000 `moveItem` with anchor
`b` swaps the two items (conjunct 2 at `l₁ = l₂ = []`), and with the
pre-removal index form (conjunct 1, `idx = 0 < 1 = bpre`) it produces the
same result. -/
theorem claim2_witness :
    Part000.moveItem [("A", [⟨"a", "Aa"⟩, ⟨"b", "Bb"⟩])] ⟨"a", "A", "A", "b"⟩
      = .ok [("A", [⟨"b", "Bb"⟩, ⟨"a", "Aa"⟩])]
    ∧ Part000.moveItem [("A", [⟨"a", "Aa"⟩, ⟨"b", "Bb"⟩])] ⟨"a", "A", "A", "b"⟩
      = .ok (setSeq [("A", [⟨"a", "Aa"⟩, ⟨"b", "Bb"⟩])] "A"
          (spliceInsert ([⟨"a", "Aa"⟩, ⟨"b", "Bb"⟩].eraseIdx 0) 1 ⟨"a", "Aa"⟩)) := by
  constructor
  · exact claim2_theorem.2 [("A", [⟨"a", "Aa"⟩, ⟨"b", "Bb"⟩])] "A" [] []
      ⟨"a", "Aa"⟩ ⟨"b", "Bb"⟩ rfl (by simp) (by simp) (by decide)
  · exact claim2_theorem.1 [("A", [⟨"a", "Aa"⟩, ⟨"b", "Bb"⟩])]
      ⟨"a", "A", "A", "b"⟩ [⟨"a", "Aa"⟩, ⟨"b", "Bb"⟩] 0 1 ⟨"a", "Aa"⟩
      rfl (by decide) rfl rfl rfl rfl (by decide)

/-- Witness for C3: with id `zz` absent from container `A`, the App.tsx
variant returns the snapshot unchanged and the part_000 variant throws. -/
theorem claim3_witness :
    AppTsx.moveItem [("A", [⟨"x", "X"⟩])] ⟨"zz", "A", "A", false, some "x"⟩
      = .ok [("A", [⟨"x", "X"⟩])]
    ∧ Part000.moveItem [("A", [⟨"x", "X"⟩])] ⟨"zz", "A", "A", "x"⟩
      = .error MoveErr.itemNotFound := by
  constructor
  · exact claim3_theorem.1 [("A", [⟨"x", "X"⟩])] ⟨"zz", "A", "A", false, some "x"⟩
      [⟨"x", "X"⟩] rfl (by decide)
  · exact claim3_theorem.2 [("A", [⟨"x", "X"⟩])] ⟨"zz", "A", "A", "x"⟩
      [⟨"x", "X"⟩] rfl (by decide)

/-- **C4**.  Uniqueness invariant.  (1) The initial layout satisfies the
Store invariant; (2)/(3) each application of `moveItem` through the
orchestrator step preserves id-uniqueness (for the App.tsx variant, for
every request an actual drop produces: `toEnd` or a truthy `beforeId`);
(4)/(5) hence every reachable snapshot has duplicate-free ids. -/
theorem claim4_theorem :
    StoreOk initialColumns
    ∧ (∀ (s : ColumnsState) (r : Part000.DropInfo),
        StoreOk s → (allIds (Part000.applyReq s r)).Nodup)
    ∧ (∀ (s : ColumnsState) (r : AppTsx.Args),
        AppTsx.isDropReq r = true → StoreOk s → (allIds (AppTsx.applyReq s r)).Nodup)
    ∧ (∀ rs : List Part000.DropInfo,
        (allIds (Part000.applyReqs initialColumns rs)).Nodup)
    ∧ (∀ rs : List AppTsx.Args, (∀ r ∈ rs, AppTsx.isDropReq r = true) →
        (allIds (AppTsx.applyReqs initialColumns rs)).Nodup) :=
  ⟨by decide,
   fun _ _ h => (Part000.applyReq_storeOk h).2,
   fun _ _ hr h => (AppTsx.applyReq_invariant hr h).2,
   fun rs => (Part000.applyReqs_storeOk rs (by decide)).2,
   fun _ h => (AppTsx.applyReqs_invariant h (by decide)).2⟩

/-- Witness for C4: one concrete cross-container drop per variant,
starting from the initial layout. -/
theorem claim4_witness :
    (allIds (Part000.applyReq initialColumns ⟨"t1", "a1", "b2", "last"⟩)).Nodup
    ∧ (allIds (AppTsx.applyReq initialColumns
        ⟨"t1", "a1", "a2", false, some "d1"⟩)).Nodup
    ∧ (allIds (Part000.applyReqs initialColumns
        [⟨"t1", "a1", "b2", "last"⟩, ⟨"t2", "a1", "b2", "t1"⟩])).Nodup
    ∧ (allIds (AppTsx.applyReqs initialColumns
        [⟨"t1", "a1", "a2", false, some "d1"⟩,
         ⟨"d1", "a2", "a3", true, none⟩])).Nodup :=
  ⟨claim4_theorem.2.1 initialColumns ⟨"t1", "a1", "b2", "last"⟩ (by decide),
   claim4_theorem.2.2.1 initialColumns ⟨"t1", "a1", "a2", false, some "d1"⟩
     (by decide) (by decide),
   claim4_theorem.2.2.2.1 [⟨"t1", "a1", "b2", "last"⟩, ⟨"t2", "a1", "b2", "t1"⟩],
   claim4_theorem.2.2.2.2 [⟨"t1", "a1", "a2", false, some "d1"⟩,
     ⟨"d1", "a2", "a3", true, none⟩] (by decide)⟩

/-- **C5**.  Missing anchor falls back to append-at-end, in both variants:
when the moved item is found but no item of the (post-removal) target
sequence carries the anchor id, `moveItem` succeeds and the new target
sequence is the old one with the item appended. -/
theorem claim5_theorem :
    (∀ (s : ColumnsState) (r : Part000.DropInfo) (source tgt : List Item)
        (idx : Nat) (item : Item),
      lookupSeq s r.from_ = some source →
      source.findIdx? (fun i => i.id == r.id) = some idx →
      source[idx]? = some item →
      r.beforeId ≠ "last" →
      lookupSeq (setSeq s r.from_ (source.eraseIdx idx)) r.to_ = some tgt →
      (∀ i ∈ tgt, i.id ≠ r.beforeId) →
      Part000.moveItem s r
        = .ok (setSeq (setSeq s r.from_ (source.eraseIdx idx)) r.to_
            (tgt ++ [item])))
    ∧ (∀ (s : ColumnsState) (r : AppTsx.Args) (source tgt : List Item)
        (idx : Nat) (item : Item) (b : String),
      r.toEnd = false →
      r.beforeId = some b →
      b ≠ "" →
      lookupSeq s r.from_ = some source →
      source.findIdx? (fun i => i.id == r.id) = some idx →
      source[idx]? = some item →
      lookupSeq (setSeq s r.from_ (source.eraseIdx idx)) r.to_ = some tgt →
      (∀ i ∈ tgt, i.id ≠ b) →
      AppTsx.moveItem s r
        = .ok (setSeq (setSeq s r.from_ (source.eraseIdx idx)) r.to_
            (tgt ++ [item]))) := by
  constructor
  · intro s r source tgt idx item h1 h2 h3 hlast h4 habs
    have hfi : tgt.findIdx? (fun i => i.id == r.beforeId) = none := by
      rw [List.findIdx?_eq_none_iff]
      intro x hx
      rw [beq_eq_false_iff_ne]
      exact habs x hx
    simp only [Part000.moveItem, h1, h2, h3, h4, hfi]
    rw [if_neg hlast, spliceInsert_length]
  · intro s r source tgt idx item b hE hb hbe h1 h2 h3 h4 habs
    have hfi : tgt.findIdx? (fun i => i.id == b) = none := by
      rw [List.findIdx?_eq_none_iff]
      intro x hx
      rw [beq_eq_false_iff_ne]
      exact habs x hx
    simp only [AppTsx.moveItem, h1, h2, h3, h4, hE, hb, hfi]
    rw [if_neg hbe, spliceInsert_length]
    simp

/-- Witness for C5: moving `x` from `A` to `B` with a stale anchor id `zz`
(absent from `B`) appends `x` at the end of `B`, in both variants. -/
theorem claim5_witness :
    Part000.moveItem [("A", [⟨"x", "X"⟩]), ("B", [⟨"y", "Y"⟩])]
        ⟨"x", "A", "B", "zz"⟩
      = .ok (setSeq (setSeq [("A", [⟨"x", "X"⟩]), ("B", [⟨"y", "Y"⟩])] "A"
            ([⟨"x", "X"⟩].eraseIdx 0)) "B" ([⟨"y", "Y"⟩] ++ [⟨"x", "X"⟩]))
    ∧ AppTsx.moveItem [("A", [⟨"x", "X"⟩]), ("B", [⟨"y", "Y"⟩])]
        ⟨"x", "A", "B", false, some "zz"⟩
      = .ok (setSeq (setSeq [("A", [⟨"x", "X"⟩]), ("B", [⟨"y", "Y"⟩])] "A"
            ([⟨"x", "X"⟩].eraseIdx 0)) "B" ([⟨"y", "Y"⟩] ++ [⟨"x", "X"⟩])) :=
  ⟨claim5_theorem.1 [("A", [⟨"x", "X"⟩]), ("B", [⟨"y", "Y"⟩])]
      ⟨"x", "A", "B", "zz"⟩ [⟨"x", "X"⟩] [⟨"y", "Y"⟩] 0 ⟨"x", "X"⟩
      rfl rfl rfl (by decide) rfl (by decide),
   claim5_theorem.2 [("A", [⟨"x", "X"⟩]), ("B", [⟨"y", "Y"⟩])]
      ⟨"x", "A", "B", false, some "zz"⟩ [⟨"x", "X"⟩] [⟨"y", "Y"⟩] 0 ⟨"x", "X"⟩
      "zz" rfl rfl (by decide) rfl rfl rfl rfl (by decide)⟩

/-- **C6**.  Frame property of both `moveItem` variants: a successful run
returns a snapshot with the same container keys in the same order, and
every container other than the source and target holds exactly the same
sequence as before.  (Purity itself is intrinsic to the embedding: the
input snapshot is a value and cannot be mutated; what the code must
guarantee — and does, by copying every sequence — is that the output only
differs at the affected keys.) -/
theorem claim6_theorem :
    (∀ (s : ColumnsState) (r : Part000.DropInfo) (s' : ColumnsState),
      Part000.moveItem s r = .ok s' →
      keyList s' = keyList s ∧
      ∀ k, k ≠ r.from_ → k ≠ r.to_ → lookupSeq s' k = lookupSeq s k)
    ∧ (∀ (s : ColumnsState) (r : AppTsx.Args) (s' : ColumnsState),
      AppTsx.moveItem s r = .ok s' →
      keyList s' = keyList s ∧
      ∀ k, k ≠ r.from_ → k ≠ r.to_ → lookupSeq s' k = lookupSeq s k) := by
  constructor
  · intro s r s' h
    refine ⟨Part000.moveItem_keyList h, ?_⟩
    obtain ⟨source, idx, item, tgt, n, _, _, _, _, h5⟩ := Part000.moveItem_ok_inv h
    intro k hkf hkt
    rw [h5, lookupSeq_setSeq_ne _ hkt, lookupSeq_setSeq_ne _ hkf]
  · intro s r s' h
    refine ⟨AppTsx.moveItem_keys h, ?_⟩
    rcases AppTsx.moveItem_ok_cases h with hs | ⟨source, idx, item, _, _, _, hcase⟩
    · intro k _ _; rw [hs]
    rcases hcase with ⟨_, _, h5⟩ | ⟨tgt, n, _, h5⟩
    · intro k hkf _
      rw [h5, lookupSeq_setSeq_ne _ hkf]
    · intro k hkf hkt
      rw [h5, lookupSeq_setSeq_ne _ hkt, lookupSeq_setSeq_ne _ hkf]

/-- Witness for C6: a concrete cross-container move from the initial
layout leaves container `a3` untouched, in both variants. -/
theorem claim6_witness :
    (keyList (Part000.applyReq initialColumns ⟨"t1", "a1", "b2", "last"⟩)
        = keyList initialColumns
      ∧ lookupSeq (Part000.applyReq initialColumns ⟨"t1", "a1", "b2", "last"⟩) "a3"
        = lookupSeq initialColumns "a3")
    ∧ (keyList (AppTsx.applyReq initialColumns ⟨"t1", "a1", "b2", true, none⟩)
        = keyList initialColumns
      ∧ lookupSeq (AppTsx.applyReq initialColumns ⟨"t1", "a1", "b2", true, none⟩) "a3"
        = lookupSeq initialColumns "a3") := by
  constructor
  · have h := claim6_theorem.1 initialColumns ⟨"t1", "a1", "b2", "last"⟩
      (Part000.applyReq initialColumns ⟨"t1", "a1", "b2", "last"⟩) rfl
    exact ⟨h.1, h.2 "a3" (by decide) (by decide)⟩
  · have h := claim6_theorem.2 initialColumns ⟨"t1", "a1", "b2", true, none⟩
      (AppTsx.applyReq initialColumns ⟨"t1", "a1", "b2", true, none⟩) rfl
    exact ⟨h.1, h.2 "a3" (by decide) (by decide)⟩

/-- **C7**.  The Column drop surface's `canDrop` rejects the drop whenever
some child of the item list — an HTML element — carries the
`data-drop-intent` marker, whatever the drag payload is; so the container
surface defers to an engaged item-level target. -/
theorem claim7_theorem :
    ∀ (dataType : Option String) (children : List Part000.ChildNode),
      (∃ c ∈ children, c.isHTMLElement = true ∧ c.dropIntentAttr = true) →
      Part000.canDrop dataType children = false := by
  intro dt ch h
  obtain ⟨c, hc, h1, h2⟩ := h
  have hint : Part000.hasDropIntent ch = true := by
    rw [Part000.hasDropIntent, List.any_eq_true]
    exact ⟨c, hc, by rw [h1, h2]; rfl⟩
  simp [Part000.canDrop, hint]

/-- Witness for C7: an item-drag over a column one of whose children
signals drop intent is rejected by the column surface. -/
theorem claim7_witness :
    Part000.canDrop (some "item") [⟨true, false⟩, ⟨true, true⟩] = false :=
  claim7_theorem (some "item") [⟨true, false⟩, ⟨true, true⟩]
    ⟨⟨true, true⟩, by decide, rfl, rfl⟩

/-- **C8**.  Moving an item "before itself" (anchor id = moved id, same
container, item present, store ids duplicate-free): after the removal the
anchor scan finds nothing (part_000: unless the id is the literal sentinel
`"last"`, which appends directly; either way the result is the same), so
both variants append the item at the end of its container. -/
theorem claim8_theorem :
    (∀ (s : ColumnsState) (r : Part000.DropInfo) (source : List Item)
        (idx : Nat) (item : Item),
      r.from_ = r.to_ →
      r.beforeId = r.id →
      lookupSeq s r.from_ = some source →
      (source.map Item.id).Nodup →
      source.findIdx? (fun i => i.id == r.id) = some idx →
      source[idx]? = some item →
      Part000.moveItem s r
        = .ok (setSeq s r.from_ (source.eraseIdx idx ++ [item])))
    ∧ (∀ (s : ColumnsState) (r : AppTsx.Args) (source : List Item)
        (idx : Nat) (item : Item),
      r.from_ = r.to_ →
      r.toEnd = false →
      r.beforeId = some r.id →
      r.id ≠ "" →
      lookupSeq s r.from_ = some source →
      (source.map Item.id).Nodup →
      source.findIdx? (fun i => i.id == r.id) = some idx →
      source[idx]? = some item →
      AppTsx.moveItem s r
        = .ok (setSeq s r.from_ (source.eraseIdx idx ++ [item]))) := by
  constructor
  · intro s r source idx item hsame hbid h1 hnd h2 h3
    have hiditem : item.id = r.id := eq_of_beq (findIdx?_prop h2 h3)
    have h4 : lookupSeq (setSeq s r.from_ (source.eraseIdx idx)) r.to_
        = some (source.eraseIdx idx) := by
      rw [← hsame]; exact lookupSeq_setSeq_self _ h1
    by_cases hlast : r.beforeId = "last"
    · simp only [Part000.moveItem, h1, h2, h3, h4]
      rw [if_pos hlast, ← hsame, setSeq_setSeq]
    · have hfi : (source.eraseIdx idx).findIdx? (fun i => i.id == r.beforeId)
          = none := by
        rw [List.findIdx?_eq_none_iff]
        intro x hx
        rw [beq_eq_false_iff_ne, hbid, ← hiditem]
        exact id_not_mem_eraseIdx hnd h3 x hx
      simp only [Part000.moveItem, h1, h2, h3, h4, hfi]
      rw [if_neg hlast, spliceInsert_length, ← hsame, setSeq_setSeq]
  · intro s r source idx item hsame hE hbid hne h1 hnd h2 h3
    have hiditem : item.id = r.id := eq_of_beq (findIdx?_prop h2 h3)
    have h4 : lookupSeq (setSeq s r.from_ (source.eraseIdx idx)) r.to_
        = some (source.eraseIdx idx) := by
      rw [← hsame]; exact lookupSeq_setSeq_self _ h1
    have hfi : (source.eraseIdx idx).findIdx? (fun i => i.id == r.id)
        = none := by
      rw [List.findIdx?_eq_none_iff]
      intro x hx
      rw [beq_eq_false_iff_ne, ← hiditem]
      exact id_not_mem_eraseIdx hnd h3 x hx
    simp only [AppTsx.moveItem, h1, h2, h3, h4, hE, hbid, hfi]
    rw [if_neg hne, spliceInsert_length, ← hsame, setSeq_setSeq]
    simp

/-- Witness for C8: on `{A:[x,y]}`, moving `x` with anchor `x` relocates
`x` behind `y` — not a no-op — in both variants. -/
theorem claim8_witness :
    Part000.moveItem [("A", [⟨"x", "X"⟩, ⟨"y", "Y"⟩])] ⟨"x", "A", "A", "x"⟩
      = .ok (setSeq [("A", [⟨"x", "X"⟩, ⟨"y", "Y"⟩])] "A"
          ([⟨"x", "X"⟩, ⟨"y", "Y"⟩].eraseIdx 0 ++ [⟨"x", "X"⟩]))
    ∧ AppTsx.moveItem [("A", [⟨"x", "X"⟩, ⟨"y", "Y"⟩])]
        ⟨"x", "A", "A", false, some "x"⟩
      = .ok (setSeq [("A", [⟨"x", "X"⟩, ⟨"y", "Y"⟩])] "A"
          ([⟨"x", "X"⟩, ⟨"y", "Y"⟩].eraseIdx 0 ++ [⟨"x", "X"⟩])) :=
  ⟨claim8_theorem.1 [("A", [⟨"x", "X"⟩, ⟨"y", "Y"⟩])] ⟨"x", "A", "A", "x"⟩
      [⟨"x", "X"⟩, ⟨"y", "Y"⟩] 0 ⟨"x", "X"⟩ rfl rfl rfl (by decide) rfl rfl,
   claim8_theorem.2 [("A", [⟨"x", "X"⟩, ⟨"y", "Y"⟩])]
      ⟨"x", "A", "A", false, some "x"⟩
      [⟨"x", "X"⟩, ⟨"y", "Y"⟩] 0 ⟨"x", "X"⟩ rfl rfl rfl (by decide) rfl
      (by decide) rfl rfl⟩

/-- **C9**.  At the raw App.tsx `moveItem` interface, an args value with
`toEnd` falsy and `beforeId` absent or empty removes the found item from
the source sequence and inserts it nowhere; under the Store invariant the
moved id then occurs nowhere in the result — the item vanishes, so
cross-store uniqueness fails at this interface (it is maintained only
because drops always supply `toEnd` or a real anchor id). -/
theorem claim9_theorem :
    ∀ (s : ColumnsState) (r : AppTsx.Args) (source : List Item) (idx : Nat)
      (item : Item),
      r.toEnd = false →
      (r.beforeId = none ∨ r.beforeId = some "") →
      lookupSeq s r.from_ = some source →
      source.findIdx? (fun i => i.id == r.id) = some idx →
      source[idx]? = some item →
      AppTsx.moveItem s r = .ok (setSeq s r.from_ (source.eraseIdx idx))
      ∧ (StoreOk s → r.id ∉ allIds (setSeq s r.from_ (source.eraseIdx idx))) := by
  intro s r source idx item hE hb h1 h2 h3
  constructor
  · rcases hb with hb | hb <;>
      simp only [AppTsx.moveItem, h1, h2, h3, hE, hb] <;> simp
  · intro hok
    have hiditem : item.id = r.id := eq_of_beq (findIdx?_prop h2 h3)
    have e := allItems_setSeq_ms (source.eraseIdx idx) hok.1 h1
    have em := congrArg (Multiset.map Item.id) e
    simp only [Multiset.map_add, Multiset.map_coe] at em
    have ee := congrArg (Multiset.map Item.id) (coe_eraseIdx h3)
    simp only [Multiset.map_coe, Multiset.map_cons] at ee
    have c1 := congrArg (Multiset.count r.id) em
    have c2 := congrArg (Multiset.count r.id) ee
    simp only [Multiset.count_add, Multiset.coe_count] at c1
    rw [hiditem] at c2
    simp only [Multiset.count_cons_self, Multiset.coe_count] at c2
    have hle : List.count r.id (allIds s) ≤ 1 :=
      List.nodup_iff_count_le_one.mp hok.2 r.id
    rw [← List.count_eq_zero]
    simp only [allIds] at hle ⊢
    omega

/-- Witness for C9: a falsy-anchor request on `{A:[x], B:[]}` removes `x`
from `A` without inserting it anywhere; `x` is gone from the store. -/
theorem claim9_witness :
    AppTsx.moveItem [("A", [⟨"x", "X"⟩]), ("B", [])] ⟨"x", "A", "B", false, none⟩
      = .ok (setSeq [("A", [⟨"x", "X"⟩]), ("B", [])] "A" ([⟨"x", "X"⟩].eraseIdx 0))
    ∧ "x" ∉ allIds (setSeq [("A", [⟨"x", "X"⟩]), ("B", [])] "A"
        ([⟨"x", "X"⟩].eraseIdx 0)) := by
  have h := claim9_theorem [("A", [⟨"x", "X"⟩]), ("B", [])]
    ⟨"x", "A", "B", false, none⟩ [⟨"x", "X"⟩] 0 ⟨"x", "X"⟩
    rfl (Or.inl rfl) rfl rfl rfl
  exact ⟨h.1, h.2 (by decide)⟩

/-- **C10**.  Both variants read `state[args.from]` and `state[args.to]`
unguarded.  (1) Under the precondition that both keys exist, the App.tsx
variant always completes with a snapshot; (2)–(5) when either key is
absent there are inputs on which evaluation faults (a `TypeError` reading
`findIndex`/`push` of `undefined`) instead of returning the snapshot
unchanged — shown for each variant with the source key and with the
target key missing. -/
theorem claim10_theorem :
    (∀ (s : ColumnsState) (r : AppTsx.Args),
      r.from_ ∈ keyList s → r.to_ ∈ keyList s →
      ∃ s', AppTsx.moveItem s r = .ok s')
    ∧ AppTsx.moveItem [("A", [⟨"x", "X"⟩])] ⟨"x", "B", "A", true, none⟩
        = .error MoveErr.missingContainer
    ∧ AppTsx.moveItem [("A", [⟨"x", "X"⟩])] ⟨"x", "A", "B", true, none⟩
        = .error MoveErr.missingContainer
    ∧ Part000.moveItem [("A", [⟨"x", "X"⟩])] ⟨"x", "B", "A", "last"⟩
        = .error MoveErr.missingContainer
    ∧ Part000.moveItem [("A", [⟨"x", "X"⟩])] ⟨"x", "A", "B", "last"⟩
        = .error MoveErr.missingContainer := by
  refine ⟨?_, rfl, rfl, rfl, rfl⟩
  intro s r hf ht
  obtain ⟨source, hs⟩ := lookupSeq_isSome_of_mem hf
  cases hidx : source.findIdx? (fun i => i.id == r.id) with
  | none => exact ⟨s, by simp only [AppTsx.moveItem, hs, hidx]⟩
  | some idx =>
    have hlt : idx < source.length := by
      rw [List.findIdx?_eq_some_iff_findIdx_eq] at hidx
      exact hidx.1
    have hget : source[idx]? = some source[idx] := List.getElem?_eq_getElem hlt
    have ht1 : r.to_ ∈ keyList (setSeq s r.from_ (source.eraseIdx idx)) := by
      rw [keyList_setSeq]; exact ht
    obtain ⟨tgt, htgt⟩ := lookupSeq_isSome_of_mem ht1
    by_cases hE : r.toEnd
    · refine ⟨setSeq (setSeq s r.from_ (source.eraseIdx idx)) r.to_
        (tgt ++ [source[idx]]), ?_⟩
      simp [AppTsx.moveItem, hs, hidx, hget, hE, htgt]
    · rw [Bool.not_eq_true] at hE
      cases hb : r.beforeId with
      | none =>
        refine ⟨setSeq s r.from_ (source.eraseIdx idx), ?_⟩
        simp [AppTsx.moveItem, hs, hidx, hget, hE, hb]
      | some b =>
        by_cases hbe : b = ""
        · refine ⟨setSeq s r.from_ (source.eraseIdx idx), ?_⟩
          simp [AppTsx.moveItem, hs, hidx, hget, hE, hb, hbe]
        · cases hfi : tgt.findIdx? (fun i => i.id == b) with
          | none =>
            refine ⟨setSeq (setSeq s r.from_ (source.eraseIdx idx)) r.to_
              (spliceInsert tgt tgt.length source[idx]), ?_⟩
            simp [AppTsx.moveItem, hs, hidx, hget, hE, hb, hbe, htgt, hfi]
          | some bi =>
            refine ⟨setSeq (setSeq s r.from_ (source.eraseIdx idx)) r.to_
              (spliceInsert tgt bi source[idx]), ?_⟩
            simp [AppTsx.moveItem, hs, hidx, hget, hE, hb, hbe, htgt, hfi]

/-- Witness for C10: on the initial layout, with both container keys
present, the App.tsx variant completes successfully. -/
theorem claim10_witness :
    ∃ s', AppTsx.moveItem initialColumns ⟨"t1", "a1", "b2", true, none⟩ = .ok s' :=
  claim10_theorem.1 initialColumns ⟨"t1", "a1", "b2", true, none⟩
    (by decide) (by decide)
